import Mathlib

/-!
Model of `Src/main.c`, the HC-SR04 distance meter for the ATtiny2313

The firmware is embedded as pure functions on a record `MCU` holding the I/O
registers the program touches and its three global variables.  Interrupt
service routines are state transformers; the busy-wait of `getDistance` runs
over an explicit list of handler invocations.
-/

namespace HCSR04

/-! ## Bit positions and constants

The bit numbers are those of the ATtiny2313 device header pulled in by
`<avr/io.h>` (toolchain file, not part of the sources). -/

/-- Bit of port D wired to the echo output of the sensor (INT0 pin). -/
def PD2 : Nat := 2
/-- Bit of port D wired to the switch (INT1 pin). -/
def PD3 : Nat := 3
/-- Bit of port D wired to the trigger input of the sensor. -/
def PD4 : Nat := 4
/-- Bit of port D wired to the backlight LED (active low). -/
def PD6 : Nat := 6
/-- Interrupt sense control bits of `MCUCR`. -/
def ISC00 : Nat := 0
def ISC01 : Nat := 1
def ISC10 : Nat := 2
def ISC11 : Nat := 3
/-- External interrupt enable bits of `GIMSK`. -/
def INT0 : Nat := 6
def INT1 : Nat := 7
/-- Timer0 overflow interrupt enable bit of `TIMSK`. -/
def TOIE0 : Nat := 1
/-- Timer0 clock select bit 0 of `TCCR0B`. -/
def CS00 : Nat := 0

/-- The constant of `#define BACKLIGHT_ON_TIMES 100`. -/
def BACKLIGHT_ON_TIMES : Nat := 100

/-- Width of `uint32_t`. -/
def U32 : Nat := 2 ^ 32

/-! ## Machine state -/

/-- Registers used by `main.c` and the three `volatile` globals.
`SREG_I` is the global interrupt enable flag driven by `cli()`/`sei()`. -/
structure MCU where
  PIND : Nat
  PORTD : Nat
  DDRD : Nat
  MCUCR : Nat
  GIMSK : Nat
  TIMSK : Nat
  TCCR0B : Nat
  TCNT0 : Nat
  SREG_I : Bool
  echoDone : Nat
  countTimer0 : Nat
  backlightTimes : Nat
  deriving DecidableEq

/-- Test `reg & (1 << b)` for being non-zero. -/
def bitIsSet (reg b : Nat) : Bool := reg &&& (1 <<< b) != 0

/-- The update `reg |= (1 << b)`. -/
def setBit (reg b : Nat) : Nat := reg ||| (1 <<< b)

/-- The update `reg &= ~(1 << b)` on an 8-bit register. -/
def clearBit (reg b : Nat) : Nat := reg &&& (0xFF ^^^ (1 <<< b))

/-- Global interrupt disable, `cli()`. -/
def cli (s : MCU) : MCU := { s with SREG_I := false }

/-- Global interrupt enable, `sei()`. -/
def sei (s : MCU) : MCU := { s with SREG_I := true }

/-! ## Interrupt service routines (main.c 72-110) -/

/-- Handler `ISR(TIMER0_OVF_vect)`: `countTimer0 += 255;` -/
def TIMER0_OVF_vect (s : MCU) : MCU :=
  { s with countTimer0 := (s.countTimer0 + 255) % U32 }

/-- Handler `ISR(INT0_vect)`: the edge direction is read from PD2. -/
def INT0_vect (s : MCU) : MCU :=
  if bitIsSet s.PIND PD2 then
    -- rising edge
    let s := { s with TCCR0B := setBit s.TCCR0B CS00 }
    { s with TIMSK := setBit s.TIMSK TOIE0 }
  else
    -- falling edge
    let s := { s with TCCR0B := clearBit s.TCCR0B CS00 }
    let s := { s with countTimer0 := (s.countTimer0 + s.TCNT0) % U32 }
    let s := { s with TCNT0 := 0 }
    { s with echoDone := 1 }

/-- Handler `ISR(INT1_vect)`: `if (!(PIND & (1 << PD3))) backlightTimes = BACKLIGHT_ON_TIMES;` -/
def INT1_vect (s : MCU) : MCU :=
  if !bitIsSet s.PIND PD3 then
    { s with backlightTimes := BACKLIGHT_ON_TIMES }
  else
    s

/-! ## Handler invocations -/

/-- The three interrupt vectors of the program. -/
inductive Irq where
  | timer0_ovf
  | int0
  | int1
  deriving DecidableEq

/-- One handler invocation: which vector the hardware took, and the values the
hardware-driven registers `PIND` and `TCNT0` hold on entry. -/
structure Event where
  irq : Irq
  PIND : Nat
  TCNT0 : Nat
  deriving DecidableEq

/-- Run the handler of one event on the state. -/
def dispatch (s : MCU) (e : Event) : MCU :=
  let s := { s with PIND := e.PIND, TCNT0 := e.TCNT0 }
  match e.irq with
  | Irq.timer0_ovf => TIMER0_OVF_vect s
  | Irq.int0 => INT0_vect s
  | Irq.int1 => INT1_vect s

/-- The event runs the falling-edge branch of `INT0_vect`. -/
def Event.isFalling (e : Event) : Bool :=
  decide (e.irq = Irq.int0) && !bitIsSet e.PIND PD2

/-- The event runs the rising-edge branch of `INT0_vect`. -/
def Event.isRising (e : Event) : Bool :=
  decide (e.irq = Irq.int0) && bitIsSet e.PIND PD2

/-- The event runs `INT1_vect` with PD3 low, i.e. re-triggers the backlight. -/
def Event.isRetrigger (e : Event) : Bool :=
  decide (e.irq = Irq.int1) && !bitIsSet e.PIND PD3

/-! ## Initialisation (main.c 119-123, 184-198) -/

/-- Function `initHCSR04`. -/
def initHCSR04 (s : MCU) : MCU :=
  let s := { s with DDRD := setBit s.DDRD PD4 }
  { s with DDRD := clearBit s.DDRD PD2 }

/-- Function `initBackLight`. -/
def initBackLight (s : MCU) : MCU :=
  let s := { s with DDRD := setBit s.DDRD PD6 }
  let s := { s with PORTD := clearBit s.PORTD PD6 }
  let s := { s with DDRD := clearBit s.DDRD PD3 }
  let s := { s with PORTD := setBit s.PORTD PD3 }
  let s := { s with backlightTimes := BACKLIGHT_ON_TIMES }
  let s := cli s
  let s := { s with MCUCR := s.MCUCR ||| ((0 <<< ISC11) ||| (1 <<< ISC10)) }
  let s := { s with GIMSK := setBit s.GIMSK INT1 }
  sei s

/-- Register file after a hardware reset, globals zero-initialised. -/
def powerOn : MCU :=
  { PIND := 0, PORTD := 0, DDRD := 0, MCUCR := 0, GIMSK := 0, TIMSK := 0,
    TCCR0B := 0, TCNT0 := 0, SREG_I := false,
    echoDone := 0, countTimer0 := 0, backlightTimes := 0 }

/-- State on entry to the `while (1)` loop of `main`. -/
def mainInit : MCU := initBackLight (initHCSR04 powerOn)

/-! ## `getDistance` (main.c 128-177) -/

/-- Lines 132-137: `cli()` up to and including `countTimer0 = 0`. -/
def getDistance_reset (s : MCU) : MCU :=
  let s := cli s
  let s := { s with MCUCR := s.MCUCR ||| ((0 <<< ISC01) ||| (1 <<< ISC00)) }
  let s := { s with GIMSK := setBit s.GIMSK INT0 }
  let s := { s with echoDone := 0 }
  { s with countTimer0 := 0 }

/-- Lines 132-138: the reset sequence followed by `sei()`. -/
def getDistance_arm (s : MCU) : MCU := sei (getDistance_reset s)

/-- Lines 143-148: the trigger pulse on PD4 (delays carry no state). -/
def triggerPulse (s : MCU) : MCU :=
  let s := { s with PORTD := clearBit s.PORTD PD4 }
  let s := { s with PORTD := setBit s.PORTD PD4 }
  { s with PORTD := clearBit s.PORTD PD4 }

/-- Lines 155-156: `while (!echoDone) ;` over the handler invocations that
interrupt it.  Returns the state on leaving the loop and the events not yet
taken; `none` when the events run out with the flag still clear. -/
def busyWait : MCU → List Event → Option (MCU × List Event)
  | s, [] => if s.echoDone ≠ 0 then some (s, []) else none
  | s, e :: es =>
    if s.echoDone ≠ 0 then some (s, e :: es) else busyWait (dispatch s e) es

/-- Line 174: `(17013 * countTimer0) / 800000` in `uint32_t` arithmetic. -/
def ticksToDistance (count : Nat) : Nat := ((17013 * count) % U32) / 800000

/-- Line 160: `GIMSK &= ~(1 << INT0);` -/
def disarm (s : MCU) : MCU := { s with GIMSK := clearBit s.GIMSK INT0 }

/-- Function `getDistance`: returns the distance, the state on return and the
events left over; `none` when the busy-wait never ends. -/
def getDistance (s : MCU) (evs : List Event) : Option (Nat × MCU × List Event) :=
  match busyWait (triggerPulse (getDistance_arm s)) evs with
  | none => none
  | some (s, rest) =>
    let s := disarm s
    let distance := ticksToDistance s.countTimer0
    some (distance, s, rest)

/-- State in which `getDistance` leaves the busy-wait when the first falling
edge `e` comes after the events `pre`. -/
def afterEcho (s : MCU) (pre : List Event) (e : Event) : MCU :=
  dispatch (pre.foldl dispatch (triggerPulse (getDistance_arm s))) e

/-- Handler invocations of one echo: the rising edge, `N` timer overflows, and
the falling edge taken with the hardware counter at `V`. -/
def echoRun (N V : Nat) : List Event :=
  Event.mk Irq.int0 4 0 ::
    (List.replicate N (Event.mk Irq.timer0_ovf 4 0) ++ [Event.mk Irq.int0 0 V])

/-! ## Display and backlight part of the main loop (main.c 229-257) -/

/-- Calls made to the display collaborator. -/
inductive LcdCall where
  | lcd_pos (row col : Nat)
  | xputs (text : String)
  deriving DecidableEq

/-- Decimal conversion loop: emit the least significant digit, divide by ten,
stop when the quotient is zero. -/
def utoaLoop : Nat → Nat → List Char → List Char
  | 0, _, acc => acc
  | fuel + 1, v, acc =>
    let acc := Nat.digitChar (v % 10) :: acc
    if v / 10 = 0 then acc else utoaLoop fuel (v / 10) acc

/-- Decimal digits of a 16-bit `unsigned int`, most significant first. -/
def utoa (v : Nat) : List Char := utoaLoop 5 (v % 65536) []

/-- Right-align `cs` in a field of `width` characters, padding with blanks;
longer text is left as it is. -/
def padLeft (width : Nat) (cs : List Char) : List Char :=
  List.replicate (width - cs.length) ' ' ++ cs

/-- Modelled from the spec: the formatted-output helper `xprintf` of `xitoa.h`
is not among the sources.  This is its output for the format `"%3u.%u cm"`
used on line 245: the first argument in decimal, right-aligned in three
columns, a dot, the second argument in decimal, and the text `" cm"`. -/
def xprintf_3u_u_cm (temp1 temp2 : Nat) : String :=
  String.mk (padLeft 3 (utoa temp1) ++ '.' :: utoa temp2 ++ [' ', 'c', 'm'])

/-- Number written by a list of decimal digit characters. -/
def decValue (cs : List Char) : Nat :=
  cs.foldl (fun acc c => 10 * acc + (c.toNat - 48)) 0

/-- The calls that put the out-of-range message on the display (lines 233-236). -/
def outOfRangeCalls : List LcdCall :=
  [LcdCall.lcd_pos 1 1, LcdCall.xputs "Out of  ",
   LcdCall.lcd_pos 2 1, LcdCall.xputs " Range!!"]

/-- Lines 231-246: what the main loop sends to the display for a distance. -/
def showDistance (distance : Nat) : List LcdCall :=
  if distance > 4000 then
    outOfRangeCalls
  else
    let temp1 := distance / 10
    let temp2 := distance % 10
    [LcdCall.lcd_pos 1 1, LcdCall.xputs "Distance",
     LcdCall.lcd_pos 2 1, LcdCall.xputs (xprintf_3u_u_cm temp1 temp2)]

/-- Lines 249-257: the delayed switch-off of the backlight. -/
def backlightStep (s : MCU) : MCU :=
  if s.backlightTimes ≠ 0 then
    let s := { s with PORTD := clearBit s.PORTD PD6 }
    { s with backlightTimes := s.backlightTimes - 1 }
  else
    { s with PORTD := setBit s.PORTD PD6 }

/-- One iteration of `while (1)` in `main`: measure, display, service the
backlight; handler invocations left over from the busy-wait are taken during
the final `_delay_ms(100)`.  Returns the state and the display calls. -/
def loopBody (s : MCU) (evs : List Event) : Option (MCU × List LcdCall) :=
  match getDistance s evs with
  | none => none
  | some (distance, s, rest) =>
    some (rest.foldl dispatch (backlightStep s), showDistance distance)

/-- Consecutive iterations of the main loop, one list of handler invocations
per iteration.  Returns the state after the last one. -/
def mainLoop : MCU → List (List Event) → Option MCU
  | s, [] => some s
  | s, evs :: more =>
    match loopBody s evs with
    | none => none
    | some (s, _) => mainLoop s more

/-! ## Bit-level facts -/

theorem bitIsSet_eq_testBit (r b : Nat) : bitIsSet r b = r.testBit b := by
  unfold bitIsSet
  rw [Nat.one_shiftLeft]
  cases h : r.testBit b with
  | true =>
    have h1 : (r &&& 2 ^ b).testBit b = true := by
      rw [Nat.testBit_and, h, Nat.testBit_two_pow_self]; rfl
    have h2 : r &&& 2 ^ b ≠ 0 := by
      intro h0
      rw [h0, Nat.zero_testBit] at h1
      exact Bool.noConfusion h1
    simpa using h2
  | false =>
    have h0 : r &&& 2 ^ b = 0 := by
      apply Nat.eq_of_testBit_eq
      intro i
      rw [Nat.testBit_and, Nat.zero_testBit, Nat.testBit_two_pow]
      by_cases hi : b = i
      · subst hi; simp [h]
      · simp [hi]
    simp [h0]

theorem bitIsSet_setBit_self (r b : Nat) : bitIsSet (setBit r b) b = true := by
  rw [bitIsSet_eq_testBit, setBit, Nat.one_shiftLeft, Nat.testBit_or,
    Nat.testBit_two_pow_self, Bool.or_true]

theorem bitIsSet_setBit_other (r : Nat) {b c : Nat} (h : b ≠ c) :
    bitIsSet (setBit r b) c = bitIsSet r c := by
  rw [bitIsSet_eq_testBit, bitIsSet_eq_testBit, setBit, Nat.one_shiftLeft, Nat.testBit_or,
    Nat.testBit_two_pow_of_ne h, Bool.or_false]

theorem bitIsSet_clearBit_self (r : Nat) {b : Nat} (hb : b < 8) :
    bitIsSet (clearBit r b) b = false := by
  have h255 : Nat.testBit 255 b = true := by
    have := Nat.testBit_two_pow_sub_one 8 b
    simpa [hb] using this
  rw [bitIsSet_eq_testBit, clearBit, Nat.one_shiftLeft, Nat.testBit_and, Nat.testBit_xor,
    Nat.testBit_two_pow_self, h255]
  simp

theorem bitIsSet_clearBit_other (r : Nat) {b c : Nat} (h : b ≠ c) (hc : c < 8) :
    bitIsSet (clearBit r b) c = bitIsSet r c := by
  have h255 : Nat.testBit 255 c = true := by
    have := Nat.testBit_two_pow_sub_one 8 c
    simpa [hc] using this
  rw [bitIsSet_eq_testBit, bitIsSet_eq_testBit, clearBit, Nat.one_shiftLeft, Nat.testBit_and,
    Nat.testBit_xor, Nat.testBit_two_pow_of_ne h, h255]
  simp

/-! ## Effect of the handlers on single fields -/

theorem dispatch_echoDone (s : MCU) (e : Event) :
    (dispatch s e).echoDone = if e.isFalling then 1 else s.echoDone := by
  obtain ⟨irq, pind, tcnt⟩ := e
  cases irq
  · simp [dispatch, TIMER0_OVF_vect, Event.isFalling]
  · by_cases hp : bitIsSet pind PD2 = true
    · simp [dispatch, INT0_vect, Event.isFalling, hp]
    · simp [dispatch, INT0_vect, Event.isFalling, hp]
  · by_cases hp : bitIsSet pind PD3 = true
    · simp [dispatch, INT1_vect, Event.isFalling, hp]
    · simp [dispatch, INT1_vect, Event.isFalling, hp]

theorem dispatch_backlightTimes (s : MCU) (e : Event) :
    (dispatch s e).backlightTimes =
      if e.isRetrigger then BACKLIGHT_ON_TIMES else s.backlightTimes := by
  obtain ⟨irq, pind, tcnt⟩ := e
  cases irq
  · simp [dispatch, TIMER0_OVF_vect, Event.isRetrigger]
  · by_cases hp : bitIsSet pind PD2 = true
    · simp [dispatch, INT0_vect, Event.isRetrigger, hp]
    · simp [dispatch, INT0_vect, Event.isRetrigger, hp]
  · by_cases hp : bitIsSet pind PD3 = true
    · simp [dispatch, INT1_vect, Event.isRetrigger, hp]
    · simp [dispatch, INT1_vect, Event.isRetrigger, hp]

theorem dispatch_PORTD (s : MCU) (e : Event) : (dispatch s e).PORTD = s.PORTD := by
  obtain ⟨irq, pind, tcnt⟩ := e
  cases irq
  · simp [dispatch, TIMER0_OVF_vect]
  · by_cases hp : bitIsSet pind PD2 = true
    · simp [dispatch, INT0_vect, hp]
    · simp [dispatch, INT0_vect, hp]
  · by_cases hp : bitIsSet pind PD3 = true
    · simp [dispatch, INT1_vect, hp]
    · simp [dispatch, INT1_vect, hp]

theorem dispatch_GIMSK (s : MCU) (e : Event) : (dispatch s e).GIMSK = s.GIMSK := by
  obtain ⟨irq, pind, tcnt⟩ := e
  cases irq
  · simp [dispatch, TIMER0_OVF_vect]
  · by_cases hp : bitIsSet pind PD2 = true
    · simp [dispatch, INT0_vect, hp]
    · simp [dispatch, INT0_vect, hp]
  · by_cases hp : bitIsSet pind PD3 = true
    · simp [dispatch, INT1_vect, hp]
    · simp [dispatch, INT1_vect, hp]

theorem dispatch_TIMSK (s : MCU) (e : Event) :
    (dispatch s e).TIMSK = if e.isRising then setBit s.TIMSK TOIE0 else s.TIMSK := by
  obtain ⟨irq, pind, tcnt⟩ := e
  cases irq
  · simp [dispatch, TIMER0_OVF_vect, Event.isRising]
  · by_cases hp : bitIsSet pind PD2 = true
    · simp [dispatch, INT0_vect, Event.isRising, hp]
    · simp [dispatch, INT0_vect, Event.isRising, hp]
  · by_cases hp : bitIsSet pind PD3 = true
    · simp [dispatch, INT1_vect, Event.isRising, hp]
    · simp [dispatch, INT1_vect, Event.isRising, hp]

theorem dispatch_falling_TCCR0B (s : MCU) (e : Event) (h : e.isFalling = true) :
    (dispatch s e).TCCR0B = clearBit s.TCCR0B CS00 := by
  obtain ⟨irq, pind, tcnt⟩ := e
  cases irq
  · simp [Event.isFalling] at h
  · have hp : bitIsSet pind PD2 = false := by simpa [Event.isFalling] using h
    simp [dispatch, INT0_vect, hp]
  · simp [Event.isFalling] at h

theorem foldl_dispatch_backlightTimes (evs : List Event) (s : MCU)
    (h : ∀ e ∈ evs, e.isRetrigger = false) :
    (evs.foldl dispatch s).backlightTimes = s.backlightTimes := by
  induction evs generalizing s with
  | nil => rfl
  | cons e es ih =>
    rw [List.foldl_cons, ih _ (fun x hx => h x (List.mem_cons_of_mem _ hx)),
      dispatch_backlightTimes, h e (List.mem_cons_self _ _)]
    rfl

theorem foldl_dispatch_PORTD (evs : List Event) (s : MCU) :
    (evs.foldl dispatch s).PORTD = s.PORTD := by
  induction evs generalizing s with
  | nil => rfl
  | cons e es ih => rw [List.foldl_cons, ih, dispatch_PORTD]

theorem foldl_dispatch_GIMSK (evs : List Event) (s : MCU) :
    (evs.foldl dispatch s).GIMSK = s.GIMSK := by
  induction evs generalizing s with
  | nil => rfl
  | cons e es ih => rw [List.foldl_cons, ih, dispatch_GIMSK]

theorem foldl_dispatch_TOIE0_mono (evs : List Event) (s : MCU)
    (h : bitIsSet s.TIMSK TOIE0 = true) :
    bitIsSet (evs.foldl dispatch s).TIMSK TOIE0 = true := by
  induction evs generalizing s with
  | nil => exact h
  | cons e es ih =>
    rw [List.foldl_cons]
    apply ih
    rw [dispatch_TIMSK]
    split
    · exact bitIsSet_setBit_self _ _
    · exact h

theorem foldl_dispatch_TOIE0_of_rising (evs : List Event) (s : MCU)
    (h : ∃ e ∈ evs, e.isRising = true) :
    bitIsSet (evs.foldl dispatch s).TIMSK TOIE0 = true := by
  induction evs generalizing s with
  | nil =>
    obtain ⟨e, he, _⟩ := h
    cases he
  | cons x xs ih =>
    rw [List.foldl_cons]
    by_cases hx : x.isRising = true
    · apply foldl_dispatch_TOIE0_mono
      rw [dispatch_TIMSK, if_pos hx]
      exact bitIsSet_setBit_self _ _
    · apply ih
      obtain ⟨e, he, hr⟩ := h
      rcases List.mem_cons.mp he with rfl | he
      · exact absurd hr hx
      · exact ⟨e, he, hr⟩

/-! ## The busy-wait -/

theorem busyWait_of_done (s : MCU) (evs : List Event) (h : s.echoDone ≠ 0) :
    busyWait s evs = some (s, evs) := by
  cases evs with
  | nil => simp [busyWait, h]
  | cons e es => simp [busyWait, h]

theorem busyWait_none (evs : List Event) (s : MCU) (h0 : s.echoDone = 0)
    (h : ∀ e ∈ evs, e.isFalling = false) : busyWait s evs = none := by
  induction evs generalizing s with
  | nil => simp [busyWait, h0]
  | cons e es ih =>
    have he : e.isFalling = false := h e (List.mem_cons_self _ _)
    simp only [busyWait, h0, ne_eq, not_true_eq_false, if_false]
    apply ih
    · rw [dispatch_echoDone, he]; simpa using h0
    · exact fun x hx => h x (List.mem_cons_of_mem _ hx)

theorem busyWait_falling (pre : List Event) (e : Event) (post : List Event) (s : MCU)
    (h0 : s.echoDone = 0) (hpre : ∀ x ∈ pre, x.isFalling = false)
    (he : e.isFalling = true) :
    busyWait s (pre ++ e :: post) = some (dispatch (pre.foldl dispatch s) e, post) := by
  induction pre generalizing s with
  | nil =>
    simp only [List.nil_append, busyWait, h0, ne_eq, not_true_eq_false, if_false,
      List.foldl_nil]
    apply busyWait_of_done
    rw [dispatch_echoDone, he]
    simp
  | cons x xs ih =>
    have hx : x.isFalling = false := hpre x (List.mem_cons_self _ _)
    simp only [List.cons_append, busyWait, h0, ne_eq, not_true_eq_false, if_false,
      List.foldl_cons]
    apply ih
    · rw [dispatch_echoDone, hx]; simpa using h0
    · exact fun y hy => hpre y (List.mem_cons_of_mem _ hy)

/-- Every list of events either has no falling edge, or splits at its first one. -/
theorem split_first_falling (evs : List Event) :
    (∀ e ∈ evs, e.isFalling = false) ∨
    ∃ pre e post, evs = pre ++ e :: post ∧ (∀ x ∈ pre, x.isFalling = false) ∧
      e.isFalling = true := by
  induction evs with
  | nil => left; intro e he; cases he
  | cons x xs ih =>
    by_cases hx : x.isFalling = true
    · right
      exact ⟨[], x, xs, rfl, fun y hy => absurd hy (List.not_mem_nil y), hx⟩
    · have hx' : x.isFalling = false := by simpa using hx
      rcases ih with hall | ⟨pre, e, post, heq, hpre, he⟩
      · left
        intro e he
        rcases List.mem_cons.mp he with rfl | he
        · exact hx'
        · exact hall e he
      · right
        refine ⟨x :: pre, e, post, by rw [heq]; rfl, ?_, he⟩
        intro y hy
        rcases List.mem_cons.mp hy with rfl | hy
        · exact hx'
        · exact hpre y hy

/-! ## Runs of `getDistance` -/

theorem getDistance_falling (s : MCU) (pre : List Event) (e : Event) (post : List Event)
    (hpre : ∀ x ∈ pre, x.isFalling = false) (he : e.isFalling = true) :
    getDistance s (pre ++ e :: post) =
      some (ticksToDistance (afterEcho s pre e).countTimer0,
        disarm (afterEcho s pre e), post) := by
  have h0 : (triggerPulse (getDistance_arm s)).echoDone = 0 := rfl
  unfold getDistance
  rw [busyWait_falling pre e post _ h0 hpre he]
  rfl

theorem getDistance_none (s : MCU) (evs : List Event)
    (h : ∀ e ∈ evs, e.isFalling = false) : getDistance s evs = none := by
  have h0 : (triggerPulse (getDistance_arm s)).echoDone = 0 := rfl
  unfold getDistance
  rw [busyWait_none evs _ h0 h]

theorem getDistance_some (s : MCU) (evs : List Event) (d : Nat) (s' : MCU)
    (rest : List Event) (h : getDistance s evs = some (d, s', rest)) :
    ∃ pre e, evs = pre ++ e :: rest ∧ (∀ x ∈ pre, x.isFalling = false) ∧
      e.isFalling = true ∧ d = ticksToDistance (afterEcho s pre e).countTimer0 ∧
      s' = disarm (afterEcho s pre e) := by
  rcases split_first_falling evs with hall | ⟨pre, e, post, heq, hpre, he⟩
  · rw [getDistance_none s evs hall] at h
    cases h
  · rw [heq, getDistance_falling s pre e post hpre he] at h
    simp only [Option.some.injEq, Prod.mk.injEq] at h
    obtain ⟨hd, hs, hr⟩ := h
    subst hr
    exact ⟨pre, e, heq, hpre, he, hd.symm, hs.symm⟩

theorem getDistance_isSome (s : MCU) (evs : List Event) :
    (getDistance s evs).isSome = evs.any Event.isFalling := by
  rcases split_first_falling evs with hall | ⟨pre, e, post, heq, hpre, he⟩
  · rw [getDistance_none s evs hall]
    symm
    simpa [List.any_eq_false] using hall
  · rw [heq, getDistance_falling s pre e post hpre he]
    symm
    simp only [Option.isSome_some, List.any_eq_true]
    exact ⟨e, by simp, he⟩

theorem afterEcho_backlightTimes (s : MCU) (pre : List Event) (e : Event)
    (hpre : ∀ x ∈ pre, x.isRetrigger = false) (he : e.isRetrigger = false) :
    (afterEcho s pre e).backlightTimes = s.backlightTimes := by
  unfold afterEcho
  rw [dispatch_backlightTimes, he, foldl_dispatch_backlightTimes _ _ hpre]
  rfl

theorem afterEcho_PD6 (s : MCU) (pre : List Event) (e : Event) :
    bitIsSet (afterEcho s pre e).PORTD PD6 = bitIsSet s.PORTD PD6 := by
  unfold afterEcho
  rw [dispatch_PORTD, foldl_dispatch_PORTD]
  show bitIsSet (clearBit (setBit (clearBit s.PORTD PD4) PD4) PD4) PD6 = _
  rw [bitIsSet_clearBit_other _ (by decide) (by decide),
    bitIsSet_setBit_other _ (by decide),
    bitIsSet_clearBit_other _ (by decide) (by decide)]

/-! ## Tick accumulation -/

theorem iterate_overflow_countTimer0 (N : Nat) (s : MCU) (h : s.countTimer0 = 0) :
    (TIMER0_OVF_vect^[N] s).countTimer0 = (255 * N) % U32 := by
  induction N with
  | zero => simpa using h
  | succ n ih =>
    rw [Function.iterate_succ_apply']
    show ((TIMER0_OVF_vect^[n] s).countTimer0 + 255) % U32 = _
    rw [ih]
    unfold U32
    omega

/-- C2 (defect in the code): the overflow handler adds 255, not the 256 ticks of
one wraparound of the 8-bit counter.  After `N` overflow handlers from
`countTimer0 = 0` and a falling edge with `TCNT0 = V` the counter holds
`255 * N + V` (modulo `2 ^ 32`); for `N = 1`, `V = 0` that is 255 where 256 ticks
have elapsed. -/
theorem overflow_handler_adds_255 :
    (∀ (s : MCU) (N V : Nat),
      (INT0_vect { (TIMER0_OVF_vect^[N] { s with countTimer0 := 0 }) with
          PIND := clearBit s.PIND PD2, TCNT0 := V }).countTimer0 = (255 * N + V) % U32) ∧
    (INT0_vect (TIMER0_OVF_vect { powerOn with countTimer0 := 0 })).countTimer0 = 255 ∧
    255 ≠ 1 * 256 + 0 := by
  refine ⟨?_, by decide, by decide⟩
  intro s N V
  have hbit : bitIsSet (clearBit s.PIND PD2) PD2 = false :=
    bitIsSet_clearBit_self _ (by decide)
  have hc := iterate_overflow_countTimer0 N { s with countTimer0 := 0 } rfl
  simp only [INT0_vect, hbit, Bool.false_eq_true, if_false, hc]
  unfold U32
  omega

/-! ## The reset step -/

/-- C8: the overflow handler, `INT1_vect` and the rising-edge branch of
`INT0_vect` leave `echoDone` as it is, the falling-edge branch sets it to 1,
and `getDistance` clears it while interrupts are still masked.  A call of
`getDistance` returns exactly when a falling-edge handler runs during its
busy-wait, and the events it consumed end with the first such handler. -/
theorem echoDone_set_only_by_falling_edge (s : MCU) (evs : List Event) :
    (TIMER0_OVF_vect s).echoDone = s.echoDone ∧
    (INT1_vect s).echoDone = s.echoDone ∧
    (INT0_vect s).echoDone = (if s.PIND.testBit PD2 then s.echoDone else 1) ∧
    ((getDistance_reset s).echoDone = 0 ∧ (getDistance_reset s).SREG_I = false) ∧
    ((getDistance_arm s).echoDone = 0 ∧ (getDistance_arm s).SREG_I = true) ∧
    (getDistance s evs).isSome = evs.any Event.isFalling ∧
    (∀ d s' rest, getDistance s evs = some (d, s', rest) →
      ∃ pre e, evs = pre ++ e :: rest ∧ (∀ x ∈ pre, x.isFalling = false) ∧
        e.isFalling = true ∧ s'.echoDone = 1) := by
  refine ⟨rfl, ?_, ?_, ⟨rfl, rfl⟩, ⟨rfl, rfl⟩, getDistance_isSome s evs, ?_⟩
  · unfold INT1_vect
    split <;> rfl
  · rw [← bitIsSet_eq_testBit]
    unfold INT0_vect
    split <;> rfl
  · intro d s' rest h
    obtain ⟨pre, e, heq, hpre, he, _, hs⟩ := getDistance_some s evs d s' rest h
    refine ⟨pre, e, heq, hpre, he, ?_⟩
    rw [hs]
    show (afterEcho s pre e).echoDone = 1
    unfold afterEcho
    rw [dispatch_echoDone, if_pos he]

/-- Instance of `echoDone_set_only_by_falling_edge` for a measurement from the
start-up state with one rising and one falling edge. -/
theorem echoDone_set_only_by_falling_edge_witness :
    ∃ pre e, [Event.mk Irq.int0 4 0, Event.mk Irq.int0 0 58] = pre ++ e :: [] ∧
      (∀ x ∈ pre, x.isFalling = false) ∧ e.isFalling = true ∧
      (disarm (afterEcho mainInit [Event.mk Irq.int0 4 0] (Event.mk Irq.int0 0 58))).echoDone = 1 :=
  (echoDone_set_only_by_falling_edge mainInit
    [Event.mk Irq.int0 4 0, Event.mk Irq.int0 0 58]).2.2.2.2.2.2 1 _ _ (by decide)

/-! ## Frame of the switch interrupt -/

/-- C9: `INT1_vect` sets `backlightTimes` to 100 when PD3 reads low and leaves
every other register and variable as it is; when PD3 reads high it changes
nothing. -/
theorem INT1_vect_effect (s : MCU) :
    INT1_vect s = (if s.PIND.testBit PD3 then s else { s with backlightTimes := 100 }) ∧
    (INT1_vect s).backlightTimes = (if s.PIND.testBit PD3 then s.backlightTimes else 100) ∧
    (INT1_vect s).echoDone = s.echoDone ∧
    (INT1_vect s).countTimer0 = s.countTimer0 ∧
    (INT1_vect s).TCNT0 = s.TCNT0 ∧
    (INT1_vect s).TCCR0B = s.TCCR0B ∧
    (INT1_vect s).TIMSK = s.TIMSK ∧
    (INT1_vect s).GIMSK = s.GIMSK ∧
    (INT1_vect s).MCUCR = s.MCUCR ∧
    (INT1_vect s).PORTD = s.PORTD ∧
    (INT1_vect s).DDRD = s.DDRD ∧
    (INT1_vect s).PIND = s.PIND ∧
    (INT1_vect s).SREG_I = s.SREG_I := by
  rw [← bitIsSet_eq_testBit]
  unfold INT1_vect
  cases bitIsSet s.PIND PD3 <;> simp [BACKLIGHT_ON_TIMES]

/-! ## Interrupt enables when the count is read -/

/-- C6 (counterexample): a measurement from the start-up state with one rising
and one falling echo edge returns with the INT0 enable bit clear but with
`TOIE0` still set in `TIMSK`. -/
theorem TOIE0_still_set_example :
    (getDistance mainInit [Event.mk Irq.int0 4 0, Event.mk Irq.int0 0 58]).map
      (fun r => (bitIsSet r.2.1.GIMSK INT0, bitIsSet r.2.1.TIMSK TOIE0)) =
    some (false, true) := by
  decide

/-- C6 (amended): when `getDistance` reads `countTimer0` after the busy-wait,
the INT0 enable bit of `GIMSK` is clear and the falling-edge handler has
cleared the clock select bit `CS00` of Timer0; the overflow enable bit `TOIE0`
is not cleared: it is set whenever a rising edge was handled during the
measurement. -/
theorem enables_at_read (s : MCU) (evs : List Event) (d : Nat) (s' : MCU)
    (rest : List Event) (h : getDistance s evs = some (d, s', rest)) :
    d = ticksToDistance s'.countTimer0 ∧
    bitIsSet s'.GIMSK INT0 = false ∧
    bitIsSet s'.TCCR0B CS00 = false ∧
    (∀ taken, evs = taken ++ rest → (∃ x ∈ taken, x.isRising = true) →
      bitIsSet s'.TIMSK TOIE0 = true) := by
  obtain ⟨pre, e, heq, hpre, he, hd, hs⟩ := getDistance_some s evs d s' rest h
  subst hs
  refine ⟨hd, bitIsSet_clearBit_self _ (by decide), ?_, ?_⟩
  · show bitIsSet (afterEcho s pre e).TCCR0B CS00 = false
    unfold afterEcho
    rw [dispatch_falling_TCCR0B _ _ he]
    exact bitIsSet_clearBit_self _ (by decide)
  · intro taken htaken ⟨x, hx, hxr⟩
    have hsplit : taken = pre ++ [e] := by
      have h1 : taken ++ rest = (pre ++ [e]) ++ rest := by
        rw [← htaken, heq]; simp
      exact List.append_cancel_right h1
    have hx' : x ∈ pre := by
      rw [hsplit] at hx
      rcases List.mem_append.mp hx with hx | hx
      · exact hx
      · have hxe : x = e := by simpa using hx
        subst hxe
        have hf : bitIsSet x.PIND PD2 = true := by
          simp only [Event.isRising, Bool.and_eq_true] at hxr
          exact hxr.2
        simp [Event.isFalling, hf] at he
    show bitIsSet (afterEcho s pre e).TIMSK TOIE0 = true
    have hfold := foldl_dispatch_TOIE0_of_rising pre (triggerPulse (getDistance_arm s))
      ⟨x, hx', hxr⟩
    unfold afterEcho
    rw [dispatch_TIMSK]
    split
    · exact bitIsSet_setBit_self _ _
    · exact hfold

/-- Instance of `enables_at_read` for a measurement from the start-up state
with one rising and one falling edge. -/
theorem enables_at_read_witness :
    ticksToDistance 58 = ticksToDistance
      (disarm (afterEcho mainInit [Event.mk Irq.int0 4 0] (Event.mk Irq.int0 0 58))).countTimer0 ∧
    bitIsSet (disarm (afterEcho mainInit [Event.mk Irq.int0 4 0]
      (Event.mk Irq.int0 0 58))).GIMSK INT0 = false ∧
    bitIsSet (disarm (afterEcho mainInit [Event.mk Irq.int0 4 0]
      (Event.mk Irq.int0 0 58))).TCCR0B CS00 = false ∧
    bitIsSet (disarm (afterEcho mainInit [Event.mk Irq.int0 4 0]
      (Event.mk Irq.int0 0 58))).TIMSK TOIE0 = true :=
  have h := enables_at_read mainInit [Event.mk Irq.int0 4 0, Event.mk Irq.int0 0 58]
    (ticksToDistance 58)
    (disarm (afterEcho mainInit [Event.mk Irq.int0 4 0] (Event.mk Irq.int0 0 58))) []
    (by decide)
  ⟨h.1, h.2.1, h.2.2.1,
    h.2.2.2 [Event.mk Irq.int0 4 0, Event.mk Irq.int0 0 58] (by decide)
      ⟨Event.mk Irq.int0 4 0, by decide, by decide⟩⟩

theorem foldl_overflows_countTimer0 (N : Nat) (s : MCU) :
    ((List.replicate N (Event.mk Irq.timer0_ovf 4 0)).foldl dispatch s).countTimer0 % U32 =
      (s.countTimer0 + 255 * N) % U32 := by
  induction N generalizing s with
  | zero => rfl
  | succ n ih =>
    rw [List.replicate_succ, List.foldl_cons, ih]
    show ((s.countTimer0 + 255) % U32 + 255 * n) % U32 = _
    unfold U32
    omega

theorem dispatch_rising_countTimer0 (s : MCU) :
    (dispatch s (Event.mk Irq.int0 4 0)).countTimer0 = s.countTimer0 := by
  have h : bitIsSet 4 PD2 = true := by decide
  simp [dispatch, INT0_vect, h]

theorem dispatch_falling_countTimer0 (s : MCU) (V : Nat) :
    (dispatch s (Event.mk Irq.int0 0 V)).countTimer0 = (s.countTimer0 + V) % U32 := by
  have h : bitIsSet 0 PD2 = false := by decide
  simp [dispatch, INT0_vect, h]

theorem getDistance_echoRun (s : MCU) (N V : Nat) :
    (getDistance s (echoRun N V)).map Prod.fst =
      some (ticksToDistance ((255 * N + V) % U32)) := by
  have hpre : ∀ x ∈ Event.mk Irq.int0 4 0 :: List.replicate N (Event.mk Irq.timer0_ovf 4 0),
      x.isFalling = false := by
    intro x hx
    rcases List.mem_cons.mp hx with rfl | hx
    · decide
    · rw [List.eq_of_mem_replicate hx]
      decide
  have he : (Event.mk Irq.int0 0 V).isFalling = true := by
    show (decide (Irq.int0 = Irq.int0) && !bitIsSet 0 PD2) = true
    decide
  have hrun : echoRun N V =
      (Event.mk Irq.int0 4 0 :: List.replicate N (Event.mk Irq.timer0_ovf 4 0)) ++
        Event.mk Irq.int0 0 V :: [] := rfl
  rw [hrun, getDistance_falling s _ _ _ hpre he]
  simp only [Option.map_some', Option.some.injEq]
  congr 1
  have hfold := foldl_overflows_countTimer0 N
    (dispatch (triggerPulse (getDistance_arm s)) (Event.mk Irq.int0 4 0))
  have h0 : (triggerPulse (getDistance_arm s)).countTimer0 = 0 := rfl
  rw [dispatch_rising_countTimer0, h0] at hfold
  unfold afterEcho
  rw [dispatch_falling_countTimer0, List.foldl_cons]
  unfold U32 at hfold ⊢
  omega

theorem loopBody_display (s : MCU) (evs : List Event) :
    (loopBody s evs).map Prod.snd = (getDistance s evs).map (fun r => showDistance r.1) := by
  unfold loopBody
  cases getDistance s evs with
  | none => rfl
  | some r => rfl

/-! ## Conversion of ticks to distance -/

/-- C1 (defect in the code): the product `17013 * countTimer0` is formed in
32-bit arithmetic and wraps.  At 252453 ticks, the least count whose product
reaches `2 ^ 32`, the exact quotient is 5368 and the code returns 0: that is
what `getDistance` returns for an echo with 990 timer overflows and the
hardware counter at 3.  One tick below, the two values agree. -/
theorem ticksToDistance_wraps :
    (getDistance mainInit (echoRun 990 3)).map Prod.fst = some (ticksToDistance 252453) ∧
    ticksToDistance 252453 = 0 ∧
    252453 * 17013 / 800000 = 5368 ∧
    252453 < 2 ^ 32 ∧
    ticksToDistance 252452 = 252452 * 17013 / 800000 := by
  refine ⟨?_, by decide, by decide, by decide, by decide⟩
  rw [getDistance_echoRun]
  decide

/-- C10 (defect in the code): an echo of 304000 ticks (38 ms at 8 MHz; 1192
timer overflows and the hardware counter at 40) is 6464 by the exact formula,
beyond the limit of 4000, yet the wrapped product makes `getDistance` return
1096, and the main loop shows it as the in-range distance `109.6 cm`. -/
theorem long_echo_shown_in_range :
    4000 < 304000 * 17013 / 800000 ∧
    (getDistance mainInit (echoRun 1192 40)).map Prod.fst = some 1096 ∧
    (loopBody mainInit (echoRun 1192 40)).map Prod.snd =
      some [LcdCall.lcd_pos 1 1, LcdCall.xputs "Distance",
        LcdCall.lcd_pos 2 1, LcdCall.xputs "109.6 cm"] ∧
    (loopBody mainInit (echoRun 1192 40)).map Prod.snd ≠ some outOfRangeCalls := by
  have hrun : (getDistance mainInit (echoRun 1192 40)).map Prod.fst = some 1096 := by
    rw [getDistance_echoRun]
    decide
  have hshow : (loopBody mainInit (echoRun 1192 40)).map Prod.snd =
      some [LcdCall.lcd_pos 1 1, LcdCall.xputs "Distance",
        LcdCall.lcd_pos 2 1, LcdCall.xputs "109.6 cm"] := by
    have h1 : (getDistance mainInit (echoRun 1192 40)).map (fun r => showDistance r.1) =
        ((getDistance mainInit (echoRun 1192 40)).map Prod.fst).map showDistance := by
      rw [Option.map_map]
      rfl
    rw [loopBody_display, h1, hrun]
    decide
  refine ⟨by decide, hrun, hshow, ?_⟩
  rw [hshow]
  decide

/-! ## Display -/

theorem digitChar_value (k : Nat) (h : k < 10) : (Nat.digitChar k).toNat - 48 = k := by
  interval_cases k <;> rfl

theorem utoa_lt_1000 (m : Nat) (h : m < 1000) :
    utoa m =
      if m < 10 then [Nat.digitChar m]
      else if m < 100 then [Nat.digitChar (m / 10), Nat.digitChar (m % 10)]
      else [Nat.digitChar (m / 100), Nat.digitChar (m / 10 % 10), Nat.digitChar (m % 10)] := by
  have hm : m % 65536 = m := Nat.mod_eq_of_lt (by omega)
  unfold utoa
  rw [hm]
  by_cases h10 : m < 10
  · have h1 : m / 10 = 0 := by omega
    have h2 : m % 10 = m := by omega
    simp [utoaLoop, h10, h1, h2]
  · by_cases h100 : m < 100
    · have h1 : ¬ m / 10 = 0 := by omega
      have h2 : m / 10 / 10 = 0 := by omega
      have h3 : m / 10 % 10 = m / 10 := by omega
      simp [utoaLoop, h10, h100, h1, h2, h3]
    · have h1 : ¬ m / 10 = 0 := by omega
      have h2 : ¬ m / 10 / 10 = 0 := by omega
      have h3 : m / 10 / 10 / 10 = 0 := by omega
      have h4 : m / 10 / 10 % 10 = m / 100 := by omega
      simp only [utoaLoop]
      rw [if_neg h1, if_neg h2, if_pos h3, h4, if_neg h10, if_neg h100]

theorem utoa_length (m : Nat) (h : m < 1000) :
    1 ≤ (utoa m).length ∧ (utoa m).length ≤ 3 := by
  rw [utoa_lt_1000 m h]
  split_ifs <;> simp

theorem utoa_decValue (m : Nat) (h : m < 1000) : decValue (utoa m) = m := by
  rw [utoa_lt_1000 m h]
  split_ifs with h10 h100
  · simp only [decValue, List.foldl_cons, List.foldl_nil]
    rw [digitChar_value m h10]
    omega
  · simp only [decValue, List.foldl_cons, List.foldl_nil]
    rw [digitChar_value (m / 10) (by omega), digitChar_value (m % 10) (by omega)]
    omega
  · simp only [decValue, List.foldl_cons, List.foldl_nil]
    rw [digitChar_value (m / 100) (by omega), digitChar_value (m / 10 % 10) (by omega),
      digitChar_value (m % 10) (by omega)]
    omega

theorem utoa_digit (k : Nat) (h : k < 10) : utoa k = [Nat.digitChar k] := by
  rw [utoa_lt_1000 k (by omega), if_pos h]

/-- C4: for a distance `d` of at most 4000 the second display line consists of
the decimal digits of `d / 10` right-aligned with blanks in three columns, a
dot, the one digit `d % 10`, and `" cm"`; it is 8 characters long and
`10 * (d / 10) + d % 10 = d`.  A distance of 15 is shown as `"  1.5 cm"`, and
58 ticks give the distance 1, shown as `"  0.1 cm"`. -/
theorem distance_line_format (d : Nat) (h : d ≤ 4000) :
    showDistance d =
      [LcdCall.lcd_pos 1 1, LcdCall.xputs "Distance", LcdCall.lcd_pos 2 1,
       LcdCall.xputs (String.mk
         (List.replicate (3 - (utoa (d / 10)).length) ' ' ++ utoa (d / 10) ++
           ['.', Nat.digitChar (d % 10), ' ', 'c', 'm']))] ∧
    (1 ≤ (utoa (d / 10)).length ∧ (utoa (d / 10)).length ≤ 3) ∧
    decValue (utoa (d / 10)) = d / 10 ∧
    decValue [Nat.digitChar (d % 10)] = d % 10 ∧
    (xprintf_3u_u_cm (d / 10) (d % 10)).length = 8 ∧
    10 * (d / 10) + d % 10 = d ∧
    showDistance 15 =
      [LcdCall.lcd_pos 1 1, LcdCall.xputs "Distance",
       LcdCall.lcd_pos 2 1, LcdCall.xputs "  1.5 cm"] ∧
    ticksToDistance 58 = 1 ∧
    showDistance (ticksToDistance 58) =
      [LcdCall.lcd_pos 1 1, LcdCall.xputs "Distance",
       LcdCall.lcd_pos 2 1, LcdCall.xputs "  0.1 cm"] := by
  have hm : d / 10 < 1000 := by omega
  have hk : d % 10 < 10 := by omega
  have hlen := utoa_length (d / 10) hm
  have hd : ¬ d > 4000 := by omega
  refine ⟨?_, hlen, utoa_decValue _ hm, ?_, ?_, by omega, by decide, by decide, by decide⟩
  · simp [showDistance, hd, xprintf_3u_u_cm, padLeft, utoa_digit _ hk]
  · rw [← utoa_digit _ hk]
    exact utoa_decValue _ (by omega)
  · simp only [xprintf_3u_u_cm, padLeft, utoa_digit _ hk, String.length, List.length_append,
      List.length_replicate, List.length_cons, List.length_nil]
    omega

/-- Instance of `distance_line_format` at the distance 15. -/
theorem distance_line_format_witness :
    (1 ≤ (utoa (15 / 10)).length ∧ (utoa (15 / 10)).length ≤ 3) ∧
    decValue (utoa (15 / 10)) = 15 / 10 ∧
    decValue [Nat.digitChar (15 % 10)] = 15 % 10 ∧
    (xprintf_3u_u_cm (15 / 10) (15 % 10)).length = 8 :=
  have h := distance_line_format 15 (by decide)
  ⟨h.2.1, h.2.2.1, h.2.2.2.1, h.2.2.2.2.1⟩

/-! ## Backlight countdown -/

theorem backlightStep_backlightTimes (w : MCU) :
    (backlightStep w).backlightTimes = w.backlightTimes - 1 := by
  unfold backlightStep
  split
  · rfl
  · rename_i h
    have h0 : w.backlightTimes = 0 := by simpa using h
    show w.backlightTimes = w.backlightTimes - 1
    omega

theorem backlightStep_PD6 (w : MCU) :
    bitIsSet (backlightStep w).PORTD PD6 = decide (w.backlightTimes = 0) := by
  unfold backlightStep
  split
  · rename_i h
    show bitIsSet (clearBit w.PORTD PD6) PD6 = _
    rw [bitIsSet_clearBit_self _ (by decide)]
    simpa using h
  · rename_i h
    have h0 : w.backlightTimes = 0 := by simpa using h
    show bitIsSet (setBit w.PORTD PD6) PD6 = _
    rw [bitIsSet_setBit_self]
    simp [h0]

theorem loopBody_backlight (s : MCU) (evs : List Event)
    (hfall : ∃ e ∈ evs, e.isFalling = true)
    (hno : ∀ e ∈ evs, e.isRetrigger = false) :
    ∃ s1 calls, loopBody s evs = some (s1, calls) ∧
      s1.backlightTimes = s.backlightTimes - 1 ∧
      bitIsSet s1.PORTD PD6 = decide (s.backlightTimes = 0) := by
  rcases split_first_falling evs with hall | ⟨pre, e, post, heq, hpre, he⟩
  · obtain ⟨e, hmem, hf⟩ := hfall
    rw [hall e hmem] at hf
    cases hf
  · have hpre' : ∀ x ∈ pre, x.isRetrigger = false := fun x hx =>
      hno x (by rw [heq]; exact List.mem_append_left _ hx)
    have he' : e.isRetrigger = false :=
      hno e (by rw [heq]; exact List.mem_append_right _ (List.mem_cons_self _ _))
    have hpost : ∀ x ∈ post, x.isRetrigger = false := fun x hx =>
      hno x (by rw [heq]; exact List.mem_append_right _ (List.mem_cons_of_mem _ hx))
    have hbt : (disarm (afterEcho s pre e)).backlightTimes = s.backlightTimes :=
      afterEcho_backlightTimes s pre e hpre' he'
    refine ⟨post.foldl dispatch (backlightStep (disarm (afterEcho s pre e))),
      showDistance (ticksToDistance (afterEcho s pre e).countTimer0), ?_, ?_, ?_⟩
    · unfold loopBody
      rw [heq, getDistance_falling s pre e post hpre he]
    · rw [foldl_dispatch_backlightTimes _ _ hpost, backlightStep_backlightTimes, hbt]
    · rw [foldl_dispatch_PORTD, backlightStep_PD6, hbt]

theorem mainLoop_backlight (traces : List (List Event)) (s : MCU)
    (hfall : ∀ t ∈ traces, ∃ e ∈ t, e.isFalling = true)
    (hno : ∀ t ∈ traces, ∀ e ∈ t, e.isRetrigger = false) :
    ∃ s', mainLoop s traces = some s' ∧
      s'.backlightTimes = s.backlightTimes - traces.length ∧
      (traces ≠ [] →
        bitIsSet s'.PORTD PD6 = decide (s.backlightTimes < traces.length)) := by
  induction traces generalizing s with
  | nil => exact ⟨s, rfl, rfl, fun h => absurd rfl h⟩
  | cons t more ih =>
    obtain ⟨s1, calls, hbody, hbt, hpd⟩ :=
      loopBody_backlight s t (hfall t (List.mem_cons_self _ _))
        (hno t (List.mem_cons_self _ _))
    obtain ⟨s', hloop, hbt', hpd'⟩ := ih s1
      (fun u hu => hfall u (List.mem_cons_of_mem _ hu))
      (fun u hu => hno u (List.mem_cons_of_mem _ hu))
    refine ⟨s', ?_, ?_, ?_⟩
    · simp only [mainLoop, hbody]
      exact hloop
    · rw [hbt', hbt, List.length_cons]
      omega
    · intro _
      cases more with
      | nil =>
        simp only [mainLoop, Option.some.injEq] at hloop
        subst hloop
        rw [hpd]
        simp
      | cons u us =>
        rw [hpd' (List.cons_ne_nil _ _), hbt]
        simp only [List.length_cons, decide_eq_decide]
        omega

/-- C5 (counterexample): from the start-up state, where `backlightTimes` is
100, and with one echo per iteration and no re-trigger, the 100th iteration
brings the countdown to 0 and leaves PD6 low, the backlight still on; PD6 goes
high in the 101st iteration. -/
theorem backlight_on_at_zero_example :
    mainInit.backlightTimes = 100 ∧
    (mainLoop mainInit (List.replicate 100 (echoRun 0 58))).map
      (fun s => (s.backlightTimes, bitIsSet s.PORTD PD6)) = some (0, false) ∧
    (mainLoop mainInit (List.replicate 101 (echoRun 0 58))).map
      (fun s => (s.backlightTimes, bitIsSet s.PORTD PD6)) = some (0, true) := by
  have hfall : ∀ n, ∀ t ∈ List.replicate n (echoRun 0 58), ∃ e ∈ t, e.isFalling = true := by
    intro n t ht
    rw [List.eq_of_mem_replicate ht]
    exact ⟨Event.mk Irq.int0 0 58, by decide, by decide⟩
  have hno : ∀ n, ∀ t ∈ List.replicate n (echoRun 0 58), ∀ e ∈ t, e.isRetrigger = false := by
    intro n t ht
    rw [List.eq_of_mem_replicate ht]
    decide
  refine ⟨rfl, ?_, ?_⟩
  · obtain ⟨s', hloop, hbt, hpd⟩ := mainLoop_backlight _ mainInit (hfall 100) (hno 100)
    have hpd' := hpd (by decide)
    rw [hloop]
    have h100 : mainInit.backlightTimes = 100 := rfl
    simp only [List.length_replicate, h100] at hbt hpd'
    simp [hbt, hpd']
  · obtain ⟨s', hloop, hbt, hpd⟩ := mainLoop_backlight _ mainInit (hfall 101) (hno 101)
    have hpd' := hpd (by decide)
    rw [hloop]
    have h100 : mainInit.backlightTimes = 100 := rfl
    simp only [List.length_replicate, h100] at hbt hpd'
    simp [hbt, hpd']

/-- C5 (amended): starting from `backlightTimes = 100`, with an echo in every
iteration and no re-trigger, the main loop runs; after `k` iterations the
countdown is `100 - k`; PD6 is low (backlight on) after each of the first 100
iterations, the 100th being the one that brings the countdown to 0, and PD6 is
high (backlight off) from the 101st iteration on. -/
theorem backlight_countdown (s : MCU) (traces : List (List Event))
    (h100 : s.backlightTimes = 100)
    (hfall : ∀ t ∈ traces, ∃ e ∈ t, e.isFalling = true)
    (hno : ∀ t ∈ traces, ∀ e ∈ t, e.isRetrigger = false) :
    ∃ s', mainLoop s traces = some s' ∧
      s'.backlightTimes = 100 - traces.length ∧
      (1 ≤ traces.length → traces.length ≤ 100 → bitIsSet s'.PORTD PD6 = false) ∧
      (101 ≤ traces.length → bitIsSet s'.PORTD PD6 = true) := by
  obtain ⟨s', hloop, hbt, hpd⟩ := mainLoop_backlight traces s hfall hno
  rw [h100] at hbt hpd
  refine ⟨s', hloop, hbt, ?_, ?_⟩
  · intro h1 h2
    have hne : traces ≠ [] := by
      intro h
      rw [h] at h1
      exact absurd h1 (by decide)
    rw [hpd hne]
    simp only [decide_eq_false_iff_not]
    omega
  · intro h1
    have hne : traces ≠ [] := by
      intro h
      rw [h] at h1
      exact absurd h1 (by decide)
    rw [hpd hne]
    simp only [decide_eq_true_eq]
    omega

/-- Instance of `backlight_countdown` for two iterations from the start-up
state. -/
theorem backlight_countdown_witness :
    ∃ s', mainLoop mainInit [echoRun 0 58, echoRun 1 7] = some s' ∧
      s'.backlightTimes = 100 - [echoRun 0 58, echoRun 1 7].length ∧
      (1 ≤ [echoRun 0 58, echoRun 1 7].length → [echoRun 0 58, echoRun 1 7].length ≤ 100 →
        bitIsSet s'.PORTD PD6 = false) ∧
      (101 ≤ [echoRun 0 58, echoRun 1 7].length → bitIsSet s'.PORTD PD6 = true) :=
  backlight_countdown mainInit [echoRun 0 58, echoRun 1 7] (by decide) (by decide) (by decide)

end HCSR04
